import Mathlib

/-!
Verification of the `ah_files` unified-diff application engine.

This file gives a shallow embedding of the Python sources
`src/ah_files/udiff.py` and `src/ah_files/numbered.py` over `List Char`
(strings are modelled as lists of characters) and proves or refutes the
specification's claims about them.

Conventions:
* Python `str` is `Str := List Char`.
* Python string slicing, `find`, `startswith` are modelled by executable
  list functions defined below.
* `None`-returning / exception paths are modelled with `Option` / `Except`.
-/

abbrev Str := List Char

/-- Python `s.startswith(pat)`: `pyStartsWith pat s` is true when `pat` is a
prefix of `s`. -/
def pyStartsWith : Str → Str → Bool
  | [], _ => true
  | _ :: _, [] => false
  | p :: pt, c :: ct => p == c && pyStartsWith pt ct

/-- The pattern occurs in `s` at index `i` (Python `s[i:].startswith(pat)`). -/
def occursAt (pat s : Str) (i : Nat) : Prop :=
  pyStartsWith pat (s.drop i) = true

instance (pat s : Str) (i : Nat) : Decidable (occursAt pat s i) := by
  unfold occursAt; infer_instance

/-- Linear scan behind `strFind`: first index `≥ k` (in the original string)
at which the pattern occurs in the remaining suffix `s`. -/
def findFrom (pat : Str) : Str → Nat → Option Nat
  | [], k => if pyStartsWith pat [] then some k else none
  | c :: t, k =>
    if pyStartsWith pat (c :: t) then some k else findFrom pat t (k + 1)

/-- Python `s.find(pat)`: index of the first occurrence, `none` for `-1`. -/
def strFind (pat s : Str) : Option Nat := findFrom pat s 0

/-- Python whitespace characters (ASCII subset; the inputs in this
development contain no other whitespace). -/
def isSpaceChar (c : Char) : Bool :=
  c == ' ' || c == '\t' || c == '\n' || c == '\r' || c == '\x0b' || c == '\x0c'

/-- Python `s.strip()` (restricted to the ASCII whitespace of
`isSpaceChar`). -/
def pyStrip (s : Str) : Str :=
  ((s.dropWhile isSpaceChar).reverse.dropWhile isSpaceChar).reverse

/-- `normalize_line_endings` from udiff.py:
`text.replace('\r\n', '\n').replace('\r', '\n')`, i.e. a left-to-right scan
collapsing `\r\n` to `\n` and then turning every remaining lone `\r` into
`\n`. -/
def normalizeLineEndings : Str → Str
  | [] => []
  | '\r' :: '\n' :: rest => '\n' :: normalizeLineEndings rest
  | '\r' :: rest => '\n' :: normalizeLineEndings rest
  | c :: rest => c :: normalizeLineEndings rest

/-- Auxiliary for `splitWs` (Python `str.split()` with no arguments):
accumulates the current word reversed. -/
def splitWsAux : Str → Str → List Str
  | [], acc => if acc = [] then [] else [acc.reverse]
  | c :: t, acc =>
    if isSpaceChar c then
      if acc = [] then splitWsAux t [] else acc.reverse :: splitWsAux t []
    else splitWsAux t (c :: acc)

/-- Python `s.split()`: split on whitespace runs, dropping empty words. -/
def splitWs (s : Str) : List Str := splitWsAux s []

/-- Auxiliary for `splitComma`. -/
def splitCommaAux : Str → Str → List Str
  | [], acc => [acc.reverse]
  | ',' :: t, acc => acc.reverse :: splitCommaAux t []
  | c :: t, acc => splitCommaAux t (c :: acc)

/-- Python `s.split(',')`: split on every comma, keeping empty pieces. -/
def splitComma (s : Str) : List Str := splitCommaAux s []

/-- Auxiliary digit accumulator for `pyInt`. -/
def digitsToNatAux : Str → Nat → Option Nat
  | [], acc => some acc
  | c :: t, acc =>
    if '0' ≤ c ∧ c ≤ '9' then digitsToNatAux t (acc * 10 + (c.toNat - '0'.toNat))
    else none

/-- Value of a non-empty all-decimal-digit string. -/
def digitsToNat : Str → Option Nat
  | [] => none
  | s => digitsToNatAux s 0

/-- Python `int(s)` on decimal strings: optional surrounding whitespace,
optional sign, then a non-empty digit run.  (Python additionally accepts
underscore digit separators and non-ASCII digits; no input in this
development uses them.) -/
def pyInt (s : Str) : Option Int :=
  match pyStrip s with
  | '-' :: rest => (digitsToNat rest).map (fun n => -(n : Int))
  | '+' :: rest => (digitsToNat rest).map (fun n => (n : Int))
  | t => (digitsToNat t).map (fun n => (n : Int))

/-- One side of a hunk header: Python `parts[i][1:].split(',')` followed by
`int` conversion, defaulting the length to 1 when no comma is present.  Any
conversion failure is swallowed by the `except` and yields `none`. -/
def parseRange (s : Str) : Option (Int × Int) :=
  match splitComma (s.drop 1) with
  | [] => none
  | r0 :: rest =>
    match pyInt r0 with
    | none => none
    | some a =>
      match rest with
      | [] => some (a, 1)
      | r1 :: _ =>
        match pyInt r1 with
        | none => none
        | some b => some (a, b)

/-- `parse_hunk_header` from udiff.py.  The empty-`parts` case would raise
`IndexError` in Python; `apply_hunk` only ever calls this on a line starting
with `"@@"`, for which `parts` is non-empty, and we model it as `none`. -/
def parseHunkHeader (header : Str) : Option (Int × Int × Int × Int) :=
  match splitWs header with
  | [] => none
  | p0 :: rest =>
    if pyStartsWith "@@".data p0 then
      match rest with
      | p1 :: p2 :: _ =>
        match parseRange p1, parseRange p2 with
        | some (a, b), some (c, d) => some (a, b, c, d)
        | _, _ => none
      | _ => none
    else none

/-- The `for i, line in enumerate(hunk): if line.startswith("@@")` search in
`apply_hunk`: returns the first `"@@"` line together with the lines after it
(`hunk[header_line + 1:]`). -/
def splitAtHeader : List Str → Option (Str × List Str)
  | [] => none
  | l :: rest =>
    if pyStartsWith "@@".data l then some (l, rest) else splitAtHeader rest

/-- The before-text of a hunk body: concatenation of the (line-ending
normalized) texts of the lines starting with `' '` or `'-'`, marker
stripped. -/
def hunkBefore (body : List Str) : Str :=
  ((body.filter
      (fun l => pyStartsWith " ".data l || pyStartsWith "-".data l)).map
    (fun l => normalizeLineEndings (l.drop 1))).flatten

/-- The after-text of a hunk body: concatenation of the (line-ending
normalized) texts of the lines starting with `' '` or `'+'`, marker
stripped. -/
def hunkAfter (body : List Str) : Str :=
  ((body.filter
      (fun l => pyStartsWith " ".data l || pyStartsWith "+".data l)).map
    (fun l => normalizeLineEndings (l.drop 1))).flatten

/-- `apply_hunk` from udiff.py.  An empty hunk returns the raw content; all
other exits return data derived from the normalized content (in the source,
`content` is reassigned to its normalized form before any other exit, and
`"".join(content.splitlines(True))` is the identity, so `content_text` is
exactly the normalized content). -/
def applyHunk (content : Str) (hunk : List Str) : Str :=
  match hunk with
  | [] => content
  | _ :: _ =>
    match splitAtHeader hunk with
    | none => normalizeLineEndings content
    | some (header, body) =>
      match parseHunkHeader header with
      | none => normalizeLineEndings content
      | some _ =>
        match strFind (hunkBefore body) (normalizeLineEndings content) with
        | none => normalizeLineEndings content
        | some pos =>
          (normalizeLineEndings content).take pos ++ hunkAfter body
            ++ (normalizeLineEndings content).drop
                (pos + (hunkBefore body).length)

/-! ## Paths and the file-access layer -/

/-- `os.path.isabs` / `pathlib` absoluteness on POSIX: the path starts with
`'/'`. -/
def isAbsPath (p : Str) : Bool := pyStartsWith "/".data p

/-- `os.path.basename`: everything after the last `'/'`. -/
def basename (p : Str) : Str := (p.reverse.takeWhile (fun c => c ≠ '/')).reverse

/-- `pathlib`'s `root / p` (as used by `MockIO.abs_path` via `str(self.root /
path)` and by `FileIO.abs_path`): an absolute `p` is returned as-is, a
relative `p` is appended after a `'/'`.  We model paths free of `.` / `..`
components and duplicate slashes, which `pathlib` would additionally
normalize; no path in this development contains them. -/
def joinPath (root p : Str) : Str :=
  if isAbsPath p then p else root ++ '/' :: p

/-- The in-memory file store backing both I/O implementations: an
association list from (resolved) path to content.  `MockIO.files` is a dict;
for `FileIO` the same structure models the filesystem. -/
abbrev Store := List (Str × Str)

/-- Dict / filesystem lookup. -/
def lookupStore (st : Store) (k : Str) : Option Str :=
  match st with
  | [] => none
  | (k', v) :: rest => if k' = k then some v else lookupStore rest k

/-- Dict assignment / file overwrite: replace in place or append. -/
def insertStore (st : Store) (k v : Str) : Store :=
  match st with
  | [] => [(k, v)]
  | (k', v') :: rest =>
    if k' = k then (k, v) :: rest else (k', v') :: insertStore rest k v

/-- `MockIO.read_text`: re-resolves the path against the root (as the source
does by calling `abs_path` again) and returns `""` for a missing file. -/
def mockRead (root : Str) (st : Store) (p : Str) : Str :=
  (lookupStore st (joinPath root p)).getD []

/-- `MockIO.write_text`: re-resolves the path and assigns into the dict. -/
def mockWrite (root : Str) (st : Store) (p v : Str) : Store :=
  insertStore st (joinPath root p) v

/-- `FileIO.read_text`: `open(path)` raises `FileNotFoundError` for a
missing file — modelled as `Except`.  The path is re-resolved, as in the
source. -/
def fileRead (root : Str) (st : Store) (p : Str) : Except Unit Str :=
  match lookupStore st (joinPath root p) with
  | some c => .ok c
  | none => .error ()

/-- `FileIO.write_text` (directory creation aside, an overwrite of the
resolved path). -/
def fileWrite (root : Str) (st : Store) (p v : Str) : Store :=
  insertStore st (joinPath root p) v

/-- One parsed edit: the path as tracked by the parser (`None` until a
`---`/`+++` line is seen) and the hunk's raw lines. -/
abbrev Edit := Option Str × List Str

/-- `UnifiedDiffCoder.apply_edits` over `MockIO`: skips empty and
`/dev/null` paths, flattens relative paths to their basename, resolves
against the root, applies the hunk and writes back (counting) only when the
content changed. -/
def applyEditsMock (root : Str) : List Edit → Store → Nat × Store
  | [], st => (0, st)
  | (pOpt, hunk) :: rest, st =>
    match pOpt with
    | none => applyEditsMock root rest st
    | some p =>
      if p = [] ∨ p = "/dev/null".data then applyEditsMock root rest st
      else
        let p' := if isAbsPath p then p else basename p
        let full := joinPath root p'
        let content := mockRead root st full
        let newContent := applyHunk content hunk
        if newContent = content then applyEditsMock root rest st
        else
          let r := applyEditsMock root rest (mockWrite root st full newContent)
          (r.1 + 1, r.2)

/-- `UnifiedDiffCoder.apply_edits` over `FileIO` (the combination used by
`apply_udiff` in mod.py): identical control flow, but reading a missing file
raises, aborting the whole call. -/
def applyEditsFile (root : Str) : List Edit → Store → Except Unit (Nat × Store)
  | [], st => .ok (0, st)
  | (pOpt, hunk) :: rest, st =>
    match pOpt with
    | none => applyEditsFile root rest st
    | some p =>
      if p = [] ∨ p = "/dev/null".data then applyEditsFile root rest st
      else
        let p' := if isAbsPath p then p else basename p
        let full := joinPath root p'
        match fileRead root st full with
        | .error e => .error e
        | .ok content =>
          let newContent := applyHunk content hunk
          if newContent = content then applyEditsFile root rest st
          else
            match applyEditsFile root rest (fileWrite root st full newContent) with
            | .error e => .error e
            | .ok r => .ok (r.1 + 1, r.2)

/-! ## The diff parser -/

/-- Auxiliary for `splitLinesKeep`: the current line is accumulated
reversed. -/
def splitLinesKeepAux : Str → Str → List Str
  | [], acc => if acc = [] then [] else [acc.reverse]
  | '\n' :: t, acc => (acc.reverse ++ ['\n']) :: splitLinesKeepAux t []
  | c :: t, acc => splitLinesKeepAux t (c :: acc)

/-- `s.splitlines(keepends=True)` restricted to `'\n'` terminators (the
parser applies it to line-ending-normalized text; Python's additional exotic
terminators `\v`, `\f`, `\x1c`–`\x1e`, `\x85`, … do not occur in any input of
this development).  For `readlines` in numbered.py this split is exact,
since `readlines` splits on `'\n'` only. -/
def splitLinesKeep (s : Str) : List Str := splitLinesKeepAux s []

/-- The line loop of `UnifiedDiffCoder.get_edits`: state is the current path
and the currently open hunk; a `--- ` line commits an open hunk before
updating the path, a `+++ ` line only updates the path, an `@@` line commits
an open hunk and opens a new one, body lines are appended only when a hunk
is open, everything else is dropped; the final open hunk is committed at end
of input. -/
def getEditsGo : List Str → Option Str → List Str → List Edit
  | [], path, hunk => if hunk = [] then [] else [(path, hunk)]
  | line :: rest, path, hunk =>
    if pyStartsWith "--- ".data line then
      (if hunk = [] then [] else [(path, hunk)])
        ++ getEditsGo rest (some (pyStrip (line.drop 4))) []
    else if pyStartsWith "+++ ".data line then
      getEditsGo rest (some (pyStrip (line.drop 4))) hunk
    else if pyStartsWith "@@".data line then
      (if hunk = [] then [] else [(path, hunk)]) ++ getEditsGo rest path [line]
    else if (pyStartsWith "-".data line || pyStartsWith "+".data line
        || pyStartsWith " ".data line) && hunk ≠ [] then
      getEditsGo rest path (hunk ++ [line])
    else
      getEditsGo rest path hunk

/-- `UnifiedDiffCoder.get_edits`: normalize line endings, split into lines,
run the state machine. -/
def getEdits (diff : Str) : List Edit :=
  getEditsGo (splitLinesKeep (normalizeLineEndings diff)) none []

/-! ## numbered.py -/

/-- The line list `f.readlines()` sees for a file with raw content
`content`: text-mode reading applies universal-newline translation (the same
`\r\n`/`\r` → `\n` map as `normalize_line_endings`), then lines are split at
`'\n'`, keeping the terminator. -/
def fileLines (content : Str) : List Str :=
  splitLinesKeep (normalizeLineEndings content)

/-- `replace_lines_impl` from numbered.py, at the level of one file's
content: `none` models `return False` with no write performed, `some c'`
models a write of `c'` followed by `return True`.  The guard and the slice
assignment `lines[start-1:end] = new_lines` are taken verbatim from the
source. -/
def replaceLinesImpl (content : Str) (start endL : Int) (newLines : List Str) :
    Option Str :=
  let lines := fileLines content
  if start < 1 ∨ (lines.length : Int) < endL ∨ endL < start then none
  else
    some ((lines.take (start - 1).toNat ++ newLines
      ++ lines.drop endL.toNat).flatten)

/-! ## Helper lemmas -/

lemma pyStartsWith_nil (s : Str) : pyStartsWith [] s = true := by
  cases s <;> rfl

lemma pyStartsWith_length_le {p s : Str} (h : pyStartsWith p s = true) :
    p.length ≤ s.length := by
  induction p generalizing s with
  | nil => simp
  | cons a p ih =>
    cases s with
    | nil => simp [pyStartsWith] at h
    | cons b t =>
      simp only [pyStartsWith, Bool.and_eq_true] at h
      have := ih h.2
      simp only [List.length_cons]
      omega

lemma occursAt_lt {pat s : Str} {i : Nat} (hp : pat ≠ [])
    (h : occursAt pat s i) : i < s.length := by
  have h1 := pyStartsWith_length_le h
  rw [List.length_drop] at h1
  have h2 : 0 < pat.length := List.length_pos.mpr hp
  omega

lemma normalize_cons_ne (c : Char) (t : Str) (hc : c ≠ '\r') :
    normalizeLineEndings (c :: t) = c :: normalizeLineEndings t := by
  rw [normalizeLineEndings.eq_def]
  split <;> simp_all

lemma normalize_cr_cons (b : Char) (t : Str) (hb : b ≠ '\n') :
    normalizeLineEndings ('\r' :: b :: t) = '\n' :: normalizeLineEndings (b :: t) := by
  rw [normalizeLineEndings.eq_def]
  split <;> first
    | (simp_all; done)
    | (rename_i hne heq; injection heq with h1 h2; exact absurd h1.symm hne)

lemma normalize_noCR (s : Str) : '\r' ∉ normalizeLineEndings s := by
  induction s using normalizeLineEndings.induct with
  | case1 => simp [normalizeLineEndings]
  | case2 rest ih =>
    rw [show normalizeLineEndings ('\r' :: '\n' :: rest)
        = '\n' :: normalizeLineEndings rest from rfl]
    simpa using ih
  | case3 rest h ih =>
    cases rest with
    | nil => simp [show normalizeLineEndings ['\r'] = ['\n'] from rfl]
    | cons b t =>
      have hb : b ≠ '\n' := fun hb => h t (by rw [hb])
      rw [normalize_cr_cons b t hb]
      simpa using ih
  | case4 c rest h1 h2 ih =>
    have hc : c ≠ '\r' := fun hcc => h2 hcc
    rw [normalize_cons_ne c rest hc]
    intro hmem
    rcases List.mem_cons.mp hmem with h | h
    · exact hc h.symm
    · exact ih h

lemma normalize_of_noCR {s : Str} (h : '\r' ∉ s) : normalizeLineEndings s = s := by
  induction s with
  | nil => rfl
  | cons c t ih =>
    have hc : c ≠ '\r' := fun hc => h (by rw [hc]; exact List.mem_cons_self _ _)
    have ht : '\r' ∉ t := fun hm => h (List.mem_cons_of_mem _ hm)
    rw [normalize_cons_ne c t hc, ih ht]

lemma findFrom_eq_some {b : Str} : ∀ (s : Str) (k i : Nat),
    occursAt b s i → (∀ j, j < i → ¬ occursAt b s j) →
    findFrom b s k = some (k + i) := by
  intro s
  induction s with
  | nil =>
    intro k i hocc hmin
    have hb : pyStartsWith b [] = true := by
      simpa [occursAt, List.drop_nil] using hocc
    have hi : i = 0 := by
      by_contra h0
      exact hmin 0 (Nat.pos_of_ne_zero h0) (by simpa [occursAt] using hb)
    subst hi
    simp [findFrom, hb]
  | cons a t ih =>
    intro k i hocc hmin
    by_cases hb : pyStartsWith b (a :: t) = true
    · have hi : i = 0 := by
        by_contra h0
        exact hmin 0 (Nat.pos_of_ne_zero h0) (by simpa [occursAt] using hb)
      subst hi
      simp [findFrom, hb]
    · have hi : i ≠ 0 := by
        intro h0
        subst h0
        exact hb (by simpa [occursAt] using hocc)
      obtain ⟨i', rfl⟩ : ∃ i', i = i' + 1 := ⟨i - 1, by omega⟩
      have hstep : findFrom b (a :: t) k = findFrom b t (k + 1) := by
        simp [findFrom, hb]
      rw [hstep]
      have hocc' : occursAt b t i' := by
        simpa [occursAt, List.drop_succ_cons] using hocc
      have hmin' : ∀ j, j < i' → ¬ occursAt b t j := by
        intro j hj hoj
        exact hmin (j + 1) (by omega)
          (by simpa [occursAt, List.drop_succ_cons] using hoj)
      rw [ih (k + 1) i' hocc' hmin']
      congr 1
      omega

lemma strFind_eq_some {b s : Str} {i : Nat}
    (hocc : occursAt b s i) (hmin : ∀ j, j < i → ¬ occursAt b s j) :
    strFind b s = some i := by
  have := findFrom_eq_some s 0 i hocc hmin
  simpa [strFind] using this

lemma strFind_nil_pat (s : Str) : strFind [] s = some 0 := by
  cases s <;> simp [strFind, findFrom, pyStartsWith_nil]

lemma hunkAfter_noCR (body : List Str) : '\r' ∉ hunkAfter body := by
  intro hmem
  unfold hunkAfter at hmem
  rcases List.mem_flatten.mp hmem with ⟨l, hl, hc⟩
  rcases List.mem_map.mp hl with ⟨x, _, rfl⟩
  exact normalize_noCR _ hc

lemma applyHunk_cons (c : Str) (hd : Str) (body : List Str)
    (hhd : pyStartsWith "@@".data hd = true) :
    applyHunk c (hd :: body) =
      match parseHunkHeader hd with
      | none => normalizeLineEndings c
      | some _ =>
        match strFind (hunkBefore body) (normalizeLineEndings c) with
        | none => normalizeLineEndings c
        | some pos =>
          (normalizeLineEndings c).take pos ++ hunkAfter body
            ++ (normalizeLineEndings c).drop (pos + (hunkBefore body).length) := by
  have hsp : splitAtHeader (hd :: body) = some (hd, body) := by
    simp [splitAtHeader, hhd]
  simp only [applyHunk, hsp]

lemma applyHunk_noCR (c : Str) (hd : Str) (body : List Str) :
    '\r' ∉ applyHunk c (hd :: body) := by
  simp only [applyHunk]
  rcases hsp : splitAtHeader (hd :: body) with _ | ⟨hdr, bd⟩
  · simp only
    exact normalize_noCR c
  · simp only
    rcases hph : parseHunkHeader hdr with _ | v
    · simp only
      exact normalize_noCR c
    · simp only
      rcases hf : strFind (hunkBefore bd) (normalizeLineEndings c) with _ | pos
      · simp only
        exact normalize_noCR c
      · simp only
        intro hmem
        rcases List.mem_append.mp hmem with h | h
        · rcases List.mem_append.mp h with h | h
          · exact normalize_noCR c (List.take_subset _ _ h)
          · exact hunkAfter_noCR bd h
        · exact normalize_noCR c (List.drop_subset _ _ h)

lemma takeWhile_no_slash (l : Str) : '/' ∉ l.takeWhile (fun c => c ≠ '/') := by
  induction l with
  | nil => simp
  | cons a t ih =>
    by_cases ha : a = '/'
    · simp [List.takeWhile, ha]
    · rw [show (a :: t).takeWhile (fun c => c ≠ '/')
          = a :: t.takeWhile (fun c => c ≠ '/') by simp [List.takeWhile, ha]]
      intro hmem
      rcases List.mem_cons.mp hmem with h | h
      · exact ha h.symm
      · exact ih h

lemma basename_no_slash (p : Str) : '/' ∉ basename p := by
  intro h
  unfold basename at h
  exact takeWhile_no_slash _ (List.mem_reverse.mp h)

lemma takeWhile_eq_self_of_all {pred : Char → Bool} {l : Str}
    (h : ∀ a ∈ l, pred a = true) : l.takeWhile pred = l := by
  induction l with
  | nil => rfl
  | cons a t ih =>
    rw [show (a :: t).takeWhile pred = a :: t.takeWhile pred by
      simp [List.takeWhile, h a (List.mem_cons_self _ _)]]
    rw [ih fun b hb => h b (List.mem_cons_of_mem _ hb)]

lemma basename_of_no_slash {q : Str} (h : '/' ∉ q) : basename q = q := by
  unfold basename
  rw [takeWhile_eq_self_of_all, List.reverse_reverse]
  intro a ha
  simp only [decide_eq_true_eq, ne_eq]
  intro rfl_eq
  exact h (List.mem_reverse.mp (rfl_eq ▸ ha))

lemma basename_basename (p : Str) : basename (basename p) = basename p :=
  basename_of_no_slash (basename_no_slash p)

lemma isAbsPath_basename (p : Str) : isAbsPath (basename p) = false := by
  rcases hb : basename p with _ | ⟨a, t⟩
  · rfl
  · have ha : a ≠ '/' := by
      intro h
      apply basename_no_slash p
      rw [hb, h]
      exact List.mem_cons_self _ _
    simp [isAbsPath, pyStartsWith, ha]
    intro h
    exact absurd h.symm ha

/-! ## Claim theorems -/

/-- Claim C1, counterexample: a before-text of one non-whitespace character
(fewer than 10) occurring twice in the content is *not* refused by direct
matching: `apply_hunk` changes the content instead of returning it
unchanged. -/
theorem applyHunk_short_ambiguous_not_refused_cex :
    ((hunkBefore ["-x\n".data, "+y\n".data]).filter
        (fun ch => !(isSpaceChar ch))).length < 10
    ∧ occursAt (hunkBefore ["-x\n".data, "+y\n".data]) "x\nx\n".data 0
    ∧ occursAt (hunkBefore ["-x\n".data, "+y\n".data]) "x\nx\n".data 2
    ∧ applyHunk "x\nx\n".data
        ["@@ -1,1 +1,1 @@\n".data, "-x\n".data, "+y\n".data] ≠ "x\nx\n".data := by
  decide

/-- Claim C1 (amended): when the before-text has fewer than 10
non-whitespace characters and occurs more than once in the content, direct
matching does not refuse: `apply_hunk` replaces the *first* occurrence with
the after-text. -/
theorem applyHunk_short_ambiguous_replaces_first
    (c hd : Str) (body : List Str) (i : Nat)
    (hhd : pyStartsWith "@@".data hd = true)
    (hparse : (parseHunkHeader hd).isSome)
    (hnoCR : '\r' ∉ c)
    (hshort : ((hunkBefore body).filter (fun ch => !(isSpaceChar ch))).length < 10)
    (hmulti : ∃ j, j ≠ i ∧ occursAt (hunkBefore body) c j)
    (hocc : occursAt (hunkBefore body) c i)
    (hfirst : ∀ j, j < i → ¬ occursAt (hunkBefore body) c j) :
    applyHunk c (hd :: body)
      = c.take i ++ hunkAfter body ++ c.drop (i + (hunkBefore body).length) := by
  rw [applyHunk_cons c hd body hhd]
  obtain ⟨v, hv⟩ := Option.isSome_iff_exists.mp hparse
  rw [hv, normalize_of_noCR hnoCR, strFind_eq_some hocc hfirst]

/-- Witness for C1: the short ambiguous anchor `x\n` occurs at 0 and 2 in
`x\nx\n`; the hunk rewrites the first occurrence. -/
theorem applyHunk_short_ambiguous_replaces_first_witness :
    applyHunk "x\nx\n".data ["@@ -1,1 +1,1 @@\n".data, "-x\n".data, "+y\n".data]
      = "x\nx\n".data.take 0 ++ hunkAfter ["-x\n".data, "+y\n".data]
        ++ "x\nx\n".data.drop (0 + (hunkBefore ["-x\n".data, "+y\n".data]).length) :=
  applyHunk_short_ambiguous_replaces_first _ _ _ 0 (by decide) (by decide)
    (by decide) (by decide) ⟨2, by decide⟩ (by decide) (by omega)

/-- Claim C2: for a well-formed hunk whose non-empty before-text occurs
exactly once in the (carriage-return-free) content, `apply_hunk` returns the
literal replacement of that single occurrence by the after-text. -/
theorem applyHunk_unique_occurrence_replaces
    (c hd : Str) (body : List Str) (i : Nat)
    (hhd : pyStartsWith "@@".data hd = true)
    (hparse : (parseHunkHeader hd).isSome)
    (hnoCR : '\r' ∉ c)
    (hne : hunkBefore body ≠ [])
    (hocc : occursAt (hunkBefore body) c i)
    (huniq : ∀ j, occursAt (hunkBefore body) c j → j = i) :
    applyHunk c (hd :: body)
      = c.take i ++ hunkAfter body ++ c.drop (i + (hunkBefore body).length) := by
  rw [applyHunk_cons c hd body hhd]
  obtain ⟨v, hv⟩ := Option.isSome_iff_exists.mp hparse
  have hfirst : ∀ j, j < i → ¬ occursAt (hunkBefore body) c j := by
    intro j hj hoj
    have := huniq j hoj
    omega
  rw [hv, normalize_of_noCR hnoCR, strFind_eq_some hocc hfirst]

/-- Witness for C2: `a\n` occurs exactly once in `a\nb\n` and is replaced by
`c\n`. -/
theorem applyHunk_unique_occurrence_replaces_witness :
    applyHunk "a\nb\n".data ["@@ -1,1 +1,1 @@\n".data, "-a\n".data, "+c\n".data]
      = "a\nb\n".data.take 0 ++ hunkAfter ["-a\n".data, "+c\n".data]
        ++ "a\nb\n".data.drop (0 + (hunkBefore ["-a\n".data, "+c\n".data]).length) :=
  applyHunk_unique_occurrence_replaces _ _ _ 0 (by decide) (by decide) (by decide)
    (by decide) (by decide)
    (by
      intro j hj
      have hlt : j < 4 := occursAt_lt (by decide) hj
      interval_cases j <;> revert hj <;> decide)

/-- Claim C4, counterexample: the same body under a numeric header applies,
but under the header `@@ ... @@` (whose ranges do not parse) the hunk is
left unapplied, so the two results differ. -/
theorem applyHunk_unparseable_header_cex :
    applyHunk "a\n".data ["@@ -1,1 +1,1 @@\n".data, "-a\n".data, "+b\n".data]
      ≠ applyHunk "a\n".data ["@@ ... @@\n".data, "-a\n".data, "+b\n".data] := by
  decide

/-- Claim C4 (amended): the numeric *values* in a hunk header are irrelevant
— any two headers that both parse give identical results — but the header
must parse; a header without parseable ranges makes `apply_hunk` return the
content unapplied. -/
theorem applyHunk_header_values_irrelevant
    (c hd1 hd2 : Str) (body : List Str)
    (h1 : pyStartsWith "@@".data hd1 = true)
    (h2 : pyStartsWith "@@".data hd2 = true)
    (hp1 : (parseHunkHeader hd1).isSome)
    (hp2 : (parseHunkHeader hd2).isSome) :
    applyHunk c (hd1 :: body) = applyHunk c (hd2 :: body) := by
  rw [applyHunk_cons c hd1 body h1, applyHunk_cons c hd2 body h2]
  obtain ⟨v1, hv1⟩ := Option.isSome_iff_exists.mp hp1
  obtain ⟨v2, hv2⟩ := Option.isSome_iff_exists.mp hp2
  rw [hv1, hv2]

/-- Witness for C4: two headers with entirely different numeric ranges
produce the same applied result. -/
theorem applyHunk_header_values_irrelevant_witness :
    applyHunk "q\n".data ["@@ -1,1 +1,1 @@\n".data, "-q\n".data, "+r\n".data]
      = applyHunk "q\n".data ["@@ -7,5 +9,2 @@\n".data, "-q\n".data, "+r\n".data] :=
  applyHunk_header_values_irrelevant _ _ _ _ (by decide) (by decide) (by decide)
    (by decide)

/-- Claim C5, counterexample: a pure-insertion hunk (empty before-text)
applied to *non-empty* content does not return the content unchanged — the
after-text is prepended. -/
theorem applyHunk_pure_insert_nonempty_cex :
    hunkBefore ["+y\n".data] = []
    ∧ applyHunk "z\n".data ["@@ -0,0 +1,1 @@\n".data, "+y\n".data] ≠ "z\n".data := by
  decide

/-- Claim C5 (amended): when the before-text is empty, `apply_hunk` finds it
at position 0 and therefore prepends the after-text to the (normalized)
content; in particular on empty content the result is exactly the
after-text, but on non-empty content the insertion happens anyway instead of
being refused. -/
theorem applyHunk_empty_before_prepends
    (c hd : Str) (body : List Str)
    (hhd : pyStartsWith "@@".data hd = true)
    (hparse : (parseHunkHeader hd).isSome)
    (hb : hunkBefore body = []) :
    applyHunk c (hd :: body) = hunkAfter body ++ normalizeLineEndings c := by
  rw [applyHunk_cons c hd body hhd]
  obtain ⟨v, hv⟩ := Option.isSome_iff_exists.mp hparse
  rw [hv, hb, strFind_nil_pat]
  simp

/-- Witness for C5: inserting into non-empty content `z\nw\n` prepends. -/
theorem applyHunk_empty_before_prepends_witness :
    applyHunk "z\nw\n".data ["@@ -0,0 +1,2 @@\n".data, "+y\n".data]
      = hunkAfter ["+y\n".data] ++ normalizeLineEndings "z\nw\n".data :=
  applyHunk_empty_before_prepends _ _ _ (by decide) (by decide) (by decide)

/-- Claim C9, counterexample: when the after-text contains the before-text,
a second application of the same hunk edits again, so double application is
not idempotent. -/
theorem applyHunk_idempotence_cex :
    applyHunk
        (applyHunk "a\n".data
          ["@@ -1,1 +1,1 @@\n".data, "-a\n".data, "+a\na\n".data])
        ["@@ -1,1 +1,1 @@\n".data, "-a\n".data, "+a\na\n".data]
      ≠ applyHunk "a\n".data
          ["@@ -1,1 +1,1 @@\n".data, "-a\n".data, "+a\na\n".data] := by
  decide

/-- Claim C9 (amended): applying the same hunk twice is a no-op *provided*
the before-text no longer occurs in the result of the first application
(which can fail to hold, e.g. when the after-text contains the before-text). -/
theorem applyHunk_idempotent_of_before_gone
    (c hd : Str) (body : List Str)
    (hhd : pyStartsWith "@@".data hd = true)
    (hparse : (parseHunkHeader hd).isSome)
    (hgone : strFind (hunkBefore body) (applyHunk c (hd :: body)) = none) :
    applyHunk (applyHunk c (hd :: body)) (hd :: body)
      = applyHunk c (hd :: body) := by
  have hr : '\r' ∉ applyHunk c (hd :: body) := applyHunk_noCR c hd body
  rw [applyHunk_cons (applyHunk c (hd :: body)) hd body hhd]
  obtain ⟨v, hv⟩ := Option.isSome_iff_exists.mp hparse
  rw [hv, normalize_of_noCR hr, hgone]

/-- Witness for C9: after `a\n` is rewritten to `b\n` the anchor is gone and
re-application is a no-op. -/
theorem applyHunk_idempotent_of_before_gone_witness :
    applyHunk
        (applyHunk "a\n".data ["@@ -1,1 +1,1 @@\n".data, "-a\n".data, "+b\n".data])
        ["@@ -1,1 +1,1 @@\n".data, "-a\n".data, "+b\n".data]
      = applyHunk "a\n".data ["@@ -1,1 +1,1 @@\n".data, "-a\n".data, "+b\n".data] :=
  applyHunk_idempotent_of_before_gone _ _ _ (by decide) (by decide) (by decide)

/-- Claim C3, counterexample: a file stored with CRLF line endings whose
hunk anchor is *not* found is nevertheless rewritten (to its line-ending
normalized form) and counted, because `apply_hunk` returns normalized
content on the not-found path and `apply_edits` compares it with the raw
stored content. -/
theorem applyEdits_anchor_not_found_crlf_cex :
    strFind (hunkBefore ["-z\n".data, "+w\n".data])
        (normalizeLineEndings "a\r\n".data) = none
    ∧ applyEditsMock "/r".data
        [(some "a.txt".data,
          ["@@ -1,1 +1,1 @@\n".data, "-z\n".data, "+w\n".data])]
        [("/r/a.txt".data, "a\r\n".data)]
      = (1, [("/r/a.txt".data, "a\n".data)])
    ∧ "a\n".data ≠ "a\r\n".data := by
  decide

/-- Claim C3 (amended): provided the stored content is already free of
carriage returns, a hunk whose before-text cannot be located leaves the
store byte-for-byte unchanged, performs no write, contributes nothing to the
count and raises nothing. -/
theorem applyEditsMock_anchor_not_found
    (root : Str) (st : Store) (p hd : Str) (body : List Str)
    (hhd : pyStartsWith "@@".data hd = true)
    (hparse : (parseHunkHeader hd).isSome)
    (hnoCR : '\r' ∉ mockRead root st
        (joinPath root (if isAbsPath p then p else basename p)))
    (hfind : strFind (hunkBefore body)
        (mockRead root st
          (joinPath root (if isAbsPath p then p else basename p))) = none) :
    applyEditsMock root [(some p, hd :: body)] st = (0, st) := by
  by_cases hp : p = [] ∨ p = "/dev/null".data
  · simp [applyEditsMock, hp]
  · have happ : applyHunk
        (mockRead root st (joinPath root (if isAbsPath p then p else basename p)))
        (hd :: body)
        = mockRead root st (joinPath root (if isAbsPath p then p else basename p)) := by
      rw [applyHunk_cons _ _ _ hhd]
      obtain ⟨v, hv⟩ := Option.isSome_iff_exists.mp hparse
      rw [hv, normalize_of_noCR hnoCR, hfind]
    simp [applyEditsMock, hp, happ]

/-- Witness for C3: a clean LF file whose anchor `z\n` is absent is left
untouched and uncounted. -/
theorem applyEditsMock_anchor_not_found_witness :
    applyEditsMock "/r".data
        [(some "a.txt".data,
          ["@@ -1,1 +1,1 @@\n".data, "-z\n".data, "+w\n".data])]
        [("/r/a.txt".data, "a\n".data)]
      = (0, [("/r/a.txt".data, "a\n".data)]) :=
  applyEditsMock_anchor_not_found _ _ _ _ _ (by decide) (by decide) (by decide)
    (by decide)

/-- Claim C6, counterexample: for the relative path `a/b/c.txt`,
`apply_edits` flattens to the basename, so the edit lands on `/r/c.txt`
while `/r/a/b/c.txt` — the join of the full relative path under the root that
the claim predicts — is left unchanged. -/
theorem applyEditsFile_relative_path_basename_cex :
    applyEditsFile "/r".data
        [(some "a/b/c.txt".data,
          ["@@ -1,1 +1,1 @@\n".data, "-x\n".data, "+y\n".data])]
        [("/r/a/b/c.txt".data, "x\n".data), ("/r/c.txt".data, "x\n".data)]
      = .ok (1, [("/r/a/b/c.txt".data, "x\n".data), ("/r/c.txt".data, "y\n".data)]) := by
  rfl

/-- Claim C6 (amended): a relative path is flattened to its basename before
being joined under the root: applying an edit under path `p` behaves exactly
like applying it under `basename p` (directory components are ignored);
absolute paths are used as-is. -/
theorem applyEditsMock_relative_uses_basename
    (root : Str) (st : Store) (p : Str) (hunk : List Str)
    (hrel : isAbsPath p = false)
    (hbn : basename p ≠ []) :
    applyEditsMock root [(some p, hunk)] st
      = applyEditsMock root [(some (basename p), hunk)] st := by
  have hpne : p ≠ [] := by
    intro h
    subst h
    exact hbn rfl
  have hpd : p ≠ "/dev/null".data := by
    intro h
    subst h
    simp [isAbsPath, pyStartsWith] at hrel
  have hbd : basename p ≠ "/dev/null".data := by
    intro h
    apply basename_no_slash p
    rw [h]
    decide
  have hguard1 : ¬ (p = [] ∨ p = "/dev/null".data) := by tauto
  have hguard2 : ¬ (basename p = [] ∨ basename p = "/dev/null".data) := by tauto
  simp only [applyEditsMock, hguard1, hguard2, if_false,
    hrel, isAbsPath_basename, basename_basename, Bool.false_eq_true]

/-- Witness for C6: editing under `a/b/c.txt` is the same as editing under
its basename. -/
theorem applyEditsMock_relative_uses_basename_witness :
    applyEditsMock "/r".data
        [(some "a/b/c.txt".data,
          ["@@ -1,1 +1,1 @@\n".data, "-x\n".data, "+y\n".data])]
        [("/r/c.txt".data, "x\n".data)]
      = applyEditsMock "/r".data
        [(some (basename "a/b/c.txt".data),
          ["@@ -1,1 +1,1 @@\n".data, "-x\n".data, "+y\n".data])]
        [("/r/c.txt".data, "x\n".data)] :=
  applyEditsMock_relative_uses_basename _ _ _ _ (by decide) (by decide)

/-- Body-lines after an empty hunk state are dropped by the parser: lines
that are not `--- `/`+++ `/`@@` lines never open a hunk by themselves. -/
lemma getEditsGo_body_drop (bs : List Str) (pth : Option Str)
    (hbs : ∀ l ∈ bs, pyStartsWith "--- ".data l = false
      ∧ pyStartsWith "+++ ".data l = false
      ∧ pyStartsWith "@@".data l = false) :
    getEditsGo bs pth [] = [] := by
  induction bs with
  | nil => rfl
  | cons l t ih =>
    have h := hbs l (List.mem_cons_self _ _)
    simp only [getEditsGo, h.1, h.2.1, h.2.2, Bool.false_eq_true, if_false]
    rw [if_neg (by simp)]
    exact ih fun x hx => hbs x (List.mem_cons_of_mem _ hx)

/-- Claim C7, counterexample: a `---` line after an `@@` header *does* close
the open hunk (committed under the old path), and the body lines that follow
it are discarded, contradicting the claim that they still belong to the open
hunk and are committed at end of input. -/
theorem getEdits_dashes_close_hunk_cex :
    getEdits "@@ -1,1 +1,1 @@\n--- b.txt\n-x\n+y\n".data
      = [(none, ["@@ -1,1 +1,1 @@\n".data])]
    ∧ getEdits "@@ -1,1 +1,1 @@\n--- b.txt\n-x\n+y\n".data
      ≠ [(some "b.txt".data,
          ["@@ -1,1 +1,1 @@\n".data, "-x\n".data, "+y\n".data])] := by
  decide

/-- Claim C7 (amended): a `--- ` line commits (closes) an open hunk under
the path current *before* the line, and the diff body lines that follow it —
until the next `@@` header — are dropped rather than appended to any hunk;
only the path is updated. -/
theorem getEditsGo_dashes_commits
    (line : Str) (bs : List Str) (path : Option Str) (hunk : List Str)
    (hline : pyStartsWith "--- ".data line = true)
    (hhunk : hunk ≠ [])
    (hbs : ∀ l ∈ bs, (pyStartsWith "-".data l || pyStartsWith "+".data l
        || pyStartsWith " ".data l) = true
      ∧ pyStartsWith "--- ".data l = false
      ∧ pyStartsWith "+++ ".data l = false
      ∧ pyStartsWith "@@".data l = false) :
    getEditsGo (line :: bs) path hunk = [(path, hunk)] := by
  simp only [getEditsGo, hline, if_true]
  rw [if_neg hhunk, getEditsGo_body_drop bs _ (fun l hl => (hbs l hl).2),
    List.append_nil]

/-- Witness for C7: with the hunk `[@@ header]` open, a `--- b.txt` line
followed by body lines commits just the header hunk under the old path. -/
theorem getEditsGo_dashes_commits_witness :
    getEditsGo ["--- b.txt\n".data, "-x\n".data, "+y\n".data] none
        ["@@ -1,1 +1,1 @@\n".data]
      = [(none, ["@@ -1,1 +1,1 @@\n".data])] :=
  getEditsGo_dashes_commits _ _ _ _ (by decide) (by decide)
    (by
      intro l hl
      simp only [List.mem_cons, List.not_mem_nil, or_false] at hl
      rcases hl with rfl | rfl <;> exact (by decide))

/-- Claim C8, counterexample: with the real-filesystem `FileIO` (the
combination used by `apply_udiff`), reading a missing target raises
`FileNotFoundError` — the new file is *not* created from empty content and
the error propagates out of `apply_edits`. -/
theorem applyEditsFile_missing_file_raises_cex :
    applyEditsFile "/r".data
        [(some "new.txt".data, ["@@ -0,0 +1,1 @@\n".data, "+hello\n".data])] []
      = .error () := by
  rfl

/-- Claim C8 (amended): with the in-memory `MockIO`, a missing file reads as
the empty string, so the full pipeline (`get_edits` then `apply_edits`) on a
`--- /dev/null` / `+++ new.txt` insert-only diff creates the file containing
exactly the inserted lines and counts one edit. -/
theorem applyEditsMock_new_file_pipeline :
    applyEditsMock "/r".data
        (getEdits "--- /dev/null\n+++ new.txt\n@@ -0,0 +1,1 @@\n+hello\n".data) []
      = (1, [("/r/new.txt".data, "hello\n".data)]) := by
  decide

/-- Claim C10: `replace_lines_impl` returns `False` (modelled `none`, no
write) exactly when the requested 1-indexed inclusive range is invalid
(`start < 1`, or `end` beyond the line count, or `start > end`); on a valid
range it writes the splice of the new lines over lines `start..end` and
returns `True` (modelled `some`). -/
theorem replaceLinesImpl_range_guard (content : Str) (s e : Int)
    (newLines : List Str) :
    (¬ (1 ≤ s ∧ s ≤ e ∧ e ≤ ((fileLines content).length : Int)) →
      replaceLinesImpl content s e newLines = none)
    ∧ (1 ≤ s ∧ s ≤ e ∧ e ≤ ((fileLines content).length : Int) →
      replaceLinesImpl content s e newLines
        = some (((fileLines content).take (s - 1).toNat ++ newLines
            ++ (fileLines content).drop e.toNat).flatten)) := by
  constructor
  · intro h
    have hcond : s < 1 ∨ ((fileLines content).length : Int) < e ∨ e < s := by
      by_contra hc
      push_neg at hc
      exact h ⟨by omega, by omega, by omega⟩
    simp only [replaceLinesImpl]
    rw [if_pos hcond]
  · rintro ⟨h1, h2, h3⟩
    simp only [replaceLinesImpl]
    rw [if_neg (by omega)]

/-- Witness for C10: on `a\nb\nc\n`, the range `0..2` is rejected while the
range `2..2` splices in the replacement line. -/
theorem replaceLinesImpl_range_guard_witness :
    replaceLinesImpl "a\nb\nc\n".data 0 2 ["B\n".data] = none
    ∧ replaceLinesImpl "a\nb\nc\n".data 2 2 ["B\n".data]
        = some (((fileLines "a\nb\nc\n".data).take ((2 : Int) - 1).toNat
            ++ ["B\n".data]
            ++ (fileLines "a\nb\nc\n".data).drop (2 : Int).toNat).flatten) :=
  ⟨(replaceLinesImpl_range_guard "a\nb\nc\n".data 0 2 ["B\n".data]).1 (by decide),
   (replaceLinesImpl_range_guard "a\nb\nc\n".data 2 2 ["B\n".data]).2 (by decide)⟩
